import Mathlib

/-!
Shallow embedding of the batch media-conversion orchestration core of the
buzzmarketing-converter repository, and proofs about it.

Sources embedded here:
* the image converter component (`src/unnamed/part_000`): item state,
  dimension editing (`handleDimensionChange`), removal (`removeImage`),
  the per-item argument plan built inside `convertImages`, and the
  `convertImages` batch loop itself (statuses, zip bundle, virtual-file
  deletions);
* the video converter component (`src/app/components/VideoConverter.tsx`):
  the argument plan built inside `convert` and the custom-dimension input
  handler `handleWidthChange`.

Strings are modelled as `List Char` (JavaScript strings), JavaScript
numbers appearing in these code paths as `ℤ` (all inputs are integers and
every operation either stays integral or is an exact `Math.round` /
`Math.floor` of a small rational, which `ℚ` models exactly), and the
fallible engine (`ffmpeg.exec`) as a per-item success oracle `ok : ℕ → Bool`:
`ok i = false` means the engine invocation for the i-th item throws.
-/

namespace Converter

/-- JavaScript `Math.round`: round half toward positive infinity,
`Math.round x = Math.floor (x + 0.5)`.  This agrees with Mathlib's `round`. -/
def jsRound (x : ℚ) : ℤ := round x

/-- Item status, from the `ImageItem.status` union type:
`'idle' | 'processing' | 'done' | 'error'`. -/
inductive Status where
  | idle
  | processing
  | done
  | error
deriving DecidableEq, Repr

/-- One queued image, from the `ImageItem` interface.  `name` is
`file.name`; the preview URL and the raw bytes play no role in any claim
and are omitted; `outputUrl` is likewise omitted (only `outputName` is
claim-relevant). -/
structure ImgItem where
  id : List Char
  name : List Char
  keyword : List Char
  originalWidth : ℤ
  originalHeight : ℤ
  targetWidth : ℤ
  targetHeight : ℤ
  aspectRatio : ℚ
  status : Status
  outputName : Option (List Char) := none
deriving DecidableEq, Repr

/-- Which dimension a user edit targets, from the
`dimension : 'width' | 'height'` parameter of `handleDimensionChange`. -/
inductive Dim where
  | width
  | height
deriving DecidableEq, Repr

/-- The per-item update performed by `handleDimensionChange`
(src/unnamed/part_000, lines 112-129): the edited dimension is stored and
the other one is recomputed from the fixed `aspectRatio` with
`Math.round`. -/
def updateDims (img : ImgItem) (d : Dim) (value : ℤ) : ImgItem :=
  match d with
  | Dim.width =>
      { img with targetWidth := value,
                 targetHeight := jsRound ((value : ℚ) / img.aspectRatio) }
  | Dim.height =>
      { img with targetHeight := value,
                 targetWidth := jsRound ((value : ℚ) * img.aspectRatio) }

/-- `handleDimensionChange` maps the update over the list, touching only
the item with the given id. -/
def handleDimensionChange (imgs : List ImgItem) (id : List Char) (d : Dim)
    (value : ℤ) : List ImgItem :=
  imgs.map (fun img => if img.id = id then updateDims img d value else img)

/-- `removeImage` (src/unnamed/part_000, lines 100-106): filter the item
out by id (the revoked preview URL is a resource effect outside the data
model). -/
def removeImage (imgs : List ImgItem) (id : List Char) : List ImgItem :=
  imgs.filter (fun img => img.id != id)

/-- JavaScript `String.prototype.trim` on a character list. -/
def trimChars (l : List Char) : List Char :=
  ((l.dropWhile Char.isWhitespace).reverse.dropWhile Char.isWhitespace).reverse

/-- The truthiness test `img.keyword && img.keyword.trim() !== ""` guarding
keyword use in `convertImages` (an empty string is falsy, so the test is
equivalent to the trimmed keyword being nonempty). -/
def kwNonEmpty (kw : List Char) : Bool :=
  !(trimChars kw).isEmpty

/-- The keyword sanitizer from `convertImages` (line 202):
`img.keyword.trim().replace(/[^a-zA-Z0-9-_]/g, '-')`.  `Char.isAlphanum`
is exactly ASCII `[a-zA-Z0-9]`, matching the regex class. -/
def sanitizeKeyword (kw : List Char) : List Char :=
  (trimChars kw).map (fun c => if c.isAlphanum || c == '-' || c == '_' then c else '-')

/-- JavaScript `String.prototype.split('.')` on a character list: splits at
every dot, keeping empty segments, and returns `[""]` on the empty
string. -/
def splitOnDot : List Char → List (List Char)
  | [] => [[]]
  | c :: cs =>
      let r := splitOnDot cs
      if c = '.' then [] :: r
      else (c :: r.headD []) :: r.tail

/-- JavaScript `Array.prototype.join('.')`. -/
def joinDots : List (List Char) → List Char
  | [] => []
  | [s] => s
  | s :: t :: rest => s ++ '.' :: joinDots (t :: rest)

/-- The stem used for the individual download name when the keyword is
empty: `img.file.name.split('.')[0]` (text before the first dot). -/
def firstStem (name : List Char) : List Char :=
  (splitOnDot name).headD []

/-- The stem used for the zip entry:
`img.file.name.split('.').slice(0, -1).join('.')` (text before the last
dot). -/
def lastDotStem (name : List Char) : List Char :=
  joinDots ((splitOnDot name).dropLast)

/-- Zip entry name for one item, from `convertImages` lines 190-193:
`folder.file(originalName + '.' + outputFormat, data)` where
`originalName` is the stem before the last dot of the original file name
(the keyword is not consulted here). -/
def bundleEntryName (img : ImgItem) (fmt : List Char) : List Char :=
  lastDotStem img.name ++ '.' :: fmt

/-- Individual download name for one item, from `convertImages` lines
198-205: the sanitized keyword when the (trimmed) keyword is nonempty,
otherwise the stem before the first dot; extension is the selected output
format. -/
def individualName (img : ImgItem) (fmt : List Char) : List Char :=
  (if kwNonEmpty img.keyword then sanitizeKeyword img.keyword
   else firstStem img.name) ++ '.' :: fmt

/-- The engine quality value planned for the JPEG family, from
`convertImages` line 167:
`Math.max(2, Math.floor(31 - ((quality - 1) * 29 / 99)))`. -/
def jpegEngineQuality (q : ℤ) : ℤ :=
  max 2 ⌊(31 : ℚ) - ((q : ℚ) - 1) * 29 / 99⌋

/-- Modelled from the spec's words for comparison with
`jpegEngineQuality`: `clamp(floor(31 − (q−1)×29/99), 2, 31)`. -/
def jpegQualitySpecFormula (q : ℤ) : ℤ :=
  min 31 (max 2 ⌊(31 : ℚ) - ((q : ℚ) - 1) * 29 / 99⌋)

/-- The sample 1920x1080 item of the spec's aspect-ratio scenario
(dimensions and `aspectRatio = w / h` as set by `processFiles`). -/
def sampleItem1080 : ImgItem :=
  { id := ("img1").data
    name := ("landscape.png").data
    keyword := []
    originalWidth := 1920
    originalHeight := 1080
    targetWidth := 1920
    targetHeight := 1080
    aspectRatio := (1920 : ℚ) / 1080
    status := Status.idle }

/-- Decimal rendering worker, fuel-structured so that it reduces inside
the kernel; mirrors how a JavaScript number is interpolated into a
template string (base-10 digits). -/
def natToCharsAux : ℕ → ℕ → List Char → List Char
  | 0, _, acc => acc
  | fuel + 1, n, acc =>
      if n < 10 then Nat.digitChar n :: acc
      else natToCharsAux fuel (n / 10) (Nat.digitChar (n % 10) :: acc)

/-- Decimal rendering of a natural number. -/
def natToChars (n : ℕ) : List Char := natToCharsAux (n + 1) n []

/-- Decimal rendering of an integer, as JavaScript string interpolation
renders an integral number. -/
def intToChars (z : ℤ) : List Char :=
  if z < 0 then '-' :: natToChars (-z).toNat else natToChars z.toNat

/-- Even rounding from the custom-resolution branch of `convert`
(VideoConverter.tsx, lines 109-110): `Math.round(v / 2) * 2`. -/
def evenRound (z : ℤ) : ℤ := jsRound ((z : ℚ) / 2) * 2

/-- The argument plan built by `convert` (VideoConverter.tsx, lines
104-131): input reference, resolution branch (custom even-rounded scale,
or one fixed-height preset scale, or nothing for `original`), codec
branch, and the output reference `output.<format>`. -/
def planVideoArgs (outputFormat resolution codec : List Char)
    (customWidth customHeight : ℤ) : List (List Char) :=
  [("-i").data, ("input").data]
  ++ (if resolution = ("custom").data then
        [("-vf").data,
         ("scale=").data ++ intToChars (evenRound customWidth)
           ++ ':' :: intToChars (evenRound customHeight)]
      else if resolution ≠ ("original").data then
        (if resolution = ("4k").data then [("-vf").data, ("scale=-1:2160").data] else [])
        ++ (if resolution = ("1440p").data then [("-vf").data, ("scale=-1:1440").data] else [])
        ++ (if resolution = ("1080p").data then [("-vf").data, ("scale=-1:1080").data] else [])
        ++ (if resolution = ("720p").data then [("-vf").data, ("scale=-1:720").data] else [])
        ++ (if resolution = ("480p").data then [("-vf").data, ("scale=-1:480").data] else [])
        ++ (if resolution = ("360p").data then [("-vf").data, ("scale=-1:360").data] else [])
      else [])
  ++ (if codec ≠ ("copy").data then
        [("-c:v").data, codec]
        ++ (if outputFormat = ("mp4").data ∧ codec = ("libx264").data then
              [("-preset").data, ("fast").data]
            else [])
      else [("-c:v").data, ("copy").data])
  ++ [("output.").data ++ outputFormat]

/-- The custom-resolution state of the video converter: `customWidth`,
`customHeight` and the fixed `aspectRatio` (default 16/9, reset by the
probe). -/
structure VideoState where
  customWidth : ℤ
  customHeight : ℤ
  aspectRatio : ℚ
deriving DecidableEq, Repr

/-- JavaScript `parseInt(e.target.value) || 0`: a failed parse (`NaN`) and
a parsed 0 are both falsy and give 0; any other parsed integer — including
a negative one — passes through. -/
def jsOr0 : Option ℤ → ℤ
  | none => 0
  | some n => n

/-- `handleWidthChange` (VideoConverter.tsx, lines 148-154): store the
parsed width, and only when it is strictly positive recompute the height
from the fixed aspect ratio. -/
def handleWidthChange (st : VideoState) (input : Option ℤ) : VideoState :=
  let w := jsOr0 input
  let st1 : VideoState := { st with customWidth := w }
  if 0 < w then { st1 with customHeight := jsRound ((w : ℚ) / st.aspectRatio) } else st1

/-- The default video custom-resolution state (1920x1080, ratio 16/9). -/
def sampleVideoState : VideoState :=
  { customWidth := 1920, customHeight := 1080, aspectRatio := (16 : ℚ) / 9 }

/-- Virtual input filename used by `convertImages` (line 153):
`input_<id>`. -/
def inputVirtualName (img : ImgItem) : List Char :=
  ("input_").data ++ img.id

/-- Virtual output filename used by `convertImages` (line 154):
`output_<id>.<format>`. -/
def outputVirtualName (img : ImgItem) (fmt : List Char) : List Char :=
  ("output_").data ++ img.id ++ '.' :: fmt

/-- The fixed metadata tag keys pushed by `convertImages` (line 176):
`['title', 'description', 'comment', 'author', 'copyright', 'ICRD']`. -/
def metaTags : List (List Char) :=
  [("title").data, ("description").data, ("comment").data,
   ("author").data, ("copyright").data, ("ICRD").data]

/-- The per-item argument plan built inside `convertImages` (lines
158-182): input reference, optional scale filter when the target
dimensions differ from the source, format-specific quality argument,
metadata directives for a nonempty keyword, and the output reference. -/
def planImageArgs (outputFormat : List Char) (quality : ℤ) (img : ImgItem) :
    List (List Char) :=
  [("-i").data, inputVirtualName img]
  ++ (if img.targetWidth ≠ img.originalWidth ∨ img.targetHeight ≠ img.originalHeight then
        [("-vf").data,
         ("scale=").data ++ intToChars img.targetWidth ++ ':' :: intToChars img.targetHeight]
      else [])
  ++ (if outputFormat = ("jpg").data ∨ outputFormat = ("jpeg").data then
        [("-q:v").data, intToChars (jpegEngineQuality quality)]
      else if outputFormat = ("webp").data then
        [("-quality").data, intToChars quality]
      else [])
  ++ (if kwNonEmpty img.keyword then
        metaTags.flatMap (fun t => [("-metadata").data, t ++ '=' :: img.keyword])
      else [])
  ++ [outputVirtualName img outputFormat]

/-- Observable outcome of one `convertImages` run: the final item list,
the finalized zip bundle entry names (`none` when `zip.generateAsync` was
never reached because the run aborted), the virtual files deleted from the
engine filesystem, the status assignments in order (`setImages`
snapshots), and the argument lists passed to `ffmpeg.exec`. -/
structure BatchOutcome where
  images : List ImgItem
  bundle : Option (List (List Char))
  deleted : List (List Char)
  events : List (ℕ × Status)
  execs : List (List (List Char))
deriving Repr

/-- The `for` loop of `convertImages` (lines 143-217) together with the
surrounding `try`/`catch`: each item is marked `processing`, its plan is
executed, and on success the zip entry is added, the item is marked `done`
with its download name, and its two virtual files are deleted; the first
engine failure propagates out of the loop (the `catch` is outside), so the
failing item keeps status `processing`, later items stay untouched, no
deletion happens for the failing item and the bundle is never finalized.
The second argument is the loop index `i`. -/
def convertLoop (fmt : List Char) (quality : ℤ) (ok : ℕ → Bool) :
    List ImgItem → ℕ → BatchOutcome
  | [], _ => { images := [], bundle := some [], deleted := [], events := [], execs := [] }
  | img :: rest, i =>
      let imgP := { img with status := Status.processing }
      let args := planImageArgs fmt quality img
      if ok i then
        let out := convertLoop fmt quality ok rest (i + 1)
        let imgD := { imgP with status := Status.done,
                                outputName := some (individualName img fmt) }
        { images := imgD :: out.images
          bundle := out.bundle.map (fun es => bundleEntryName img fmt :: es)
          deleted := inputVirtualName img :: outputVirtualName img fmt :: out.deleted
          events := (i, Status.processing) :: (i, Status.done) :: out.events
          execs := args :: out.execs }
      else
        { images := imgP :: rest
          bundle := none
          deleted := []
          events := [(i, Status.processing)]
          execs := [args] }

/-- `convertImages` itself: the early return for an empty batch (line
132), then the loop from index 0. -/
def convertImagesRun (fmt : List Char) (quality : ℤ) (ok : ℕ → Bool)
    (items : List ImgItem) : BatchOutcome :=
  if items.isEmpty then
    { images := items, bundle := none, deleted := [], events := [], execs := [] }
  else convertLoop fmt quality ok items 0

/-- Status assignments recorded for the item at position `j`. -/
def eventsAt (j : ℕ) (evs : List (ℕ × Status)) : List Status :=
  (evs.filter (fun e => e.1 == j)).map (fun e => e.2)

/-- Sample idle item `a`. -/
def itemA : ImgItem :=
  { id := ("a1").data, name := ("a.png").data, keyword := []
    originalWidth := 10, originalHeight := 10
    targetWidth := 10, targetHeight := 10
    aspectRatio := 1, status := Status.idle }

/-- Sample idle item `b`. -/
def itemB : ImgItem :=
  { id := ("b1").data, name := ("b.png").data, keyword := []
    originalWidth := 10, originalHeight := 10
    targetWidth := 10, targetHeight := 10
    aspectRatio := 1, status := Status.idle }

/-- Sample item that already completed a previous run. -/
def itemDone : ImgItem :=
  { id := ("d1").data, name := ("d.png").data, keyword := []
    originalWidth := 10, originalHeight := 10
    targetWidth := 10, targetHeight := 10
    aspectRatio := 1, status := Status.done
    outputName := some (("d.webp").data) }

/-- Sample item carrying the spec's scenario keyword. -/
def photoItem : ImgItem :=
  { id := ("p1").data, name := ("photo.png").data
    keyword := ("Summer Sale!!").data
    originalWidth := 10, originalHeight := 10
    targetWidth := 10, targetHeight := 10
    aspectRatio := 1, status := Status.idle }

/-- Sample item whose original filename contains two dots. -/
def abItem : ImgItem :=
  { id := ("ab1").data, name := ("a.b.png").data, keyword := []
    originalWidth := 10, originalHeight := 10
    targetWidth := 10, targetHeight := 10
    aspectRatio := 1, status := Status.idle }

/-- Sample item with the one-character keyword `x`. -/
def kwXItem : ImgItem :=
  { id := ("x1").data, name := ("x.png").data, keyword := ("x").data
    originalWidth := 10, originalHeight := 10
    targetWidth := 10, targetHeight := 10
    aspectRatio := 1, status := Status.idle }

end Converter

namespace Converter

/-- The floor appearing in the JPEG quality map, as an integer division. -/
theorem jpegFloor_eq_intDiv (q : ℤ) :
    ⌊(31 : ℚ) - ((q : ℚ) - 1) * 29 / 99⌋ = (3069 - (q - 1) * 29) / 99 := by
  have h : (31 : ℚ) - ((q : ℚ) - 1) * 29 / 99
      = ((3069 - (q - 1) * 29 : ℤ) : ℚ) / ((99 : ℕ) : ℚ) := by
    push_cast
    ring
  rw [h, Rat.floor_intCast_div_natCast]
  norm_num

/-- Mathlib's `round` (which `jsRound` is) lands within 1 of its argument. -/
theorem jsRound_close (x : ℚ) : |((jsRound x : ℤ) : ℚ) - x| ≤ 1 := by
  have h := abs_sub_round x
  rw [abs_sub_comm] at h
  simp only [jsRound]
  linarith

/-- Digits below ten render as digit characters. -/
theorem digitChar_isDigit {n : ℕ} (h : n < 10) : (Nat.digitChar n).isDigit = true := by
  interval_cases n <;> decide

/-- Every character produced by the rendering worker is a digit or comes
from the accumulator. -/
theorem mem_natToCharsAux : ∀ (fuel n : ℕ) (acc : List Char) (c : Char),
    c ∈ natToCharsAux fuel n acc → c.isDigit = true ∨ c ∈ acc := by
  intro fuel
  induction fuel with
  | zero =>
      intro n acc c hc
      simp only [natToCharsAux] at hc
      exact Or.inr hc
  | succ f ih =>
      intro n acc c hc
      simp only [natToCharsAux] at hc
      split at hc
      · rcases List.mem_cons.mp hc with h | h
        · subst h
          exact Or.inl (digitChar_isDigit (by omega))
        · exact Or.inr h
      · rcases ih (n / 10) (Nat.digitChar (n % 10) :: acc) c hc with h | h
        · exact Or.inl h
        · rcases List.mem_cons.mp h with h' | h'
          · subst h'
            exact Or.inl (digitChar_isDigit (by omega))
          · exact Or.inr h'

/-- Every character of a rendered natural number is a digit. -/
theorem natToChars_all_digits (n : ℕ) :
    ∀ c ∈ natToChars n, c.isDigit = true := by
  intro c hc
  rcases mem_natToCharsAux (n + 1) n [] c hc with h | h
  · exact h
  · cases h

/-- The rendering worker never returns the empty list when it has fuel or
a nonempty accumulator. -/
theorem natToCharsAux_ne_nil : ∀ (fuel n : ℕ) (acc : List Char),
    (fuel ≠ 0 ∨ acc ≠ []) → natToCharsAux fuel n acc ≠ [] := by
  intro fuel
  induction fuel with
  | zero =>
      intro n acc h
      simp only [natToCharsAux]
      rcases h with h | h
      · exact absurd rfl h
      · exact h
  | succ f ih =>
      intro n acc _
      simp only [natToCharsAux]
      split
      · exact List.cons_ne_nil _ _
      · exact ih (n / 10) (Nat.digitChar (n % 10) :: acc) (Or.inr (List.cons_ne_nil _ _))

/-- A rendered natural number is never the empty string. -/
theorem natToChars_ne_nil (n : ℕ) : natToChars n ≠ [] :=
  natToCharsAux_ne_nil (n + 1) n [] (Or.inl (Nat.succ_ne_zero n))

/-- A rendered integer starts with a minus sign or a digit. -/
theorem intToChars_head (z : ℤ) :
    ∃ c l, intToChars z = c :: l ∧ (c = '-' ∨ c.isDigit = true) := by
  rw [intToChars]
  split
  · exact ⟨'-', natToChars (-z).toNat, rfl, Or.inl rfl⟩
  · obtain ⟨c, l, h⟩ := List.exists_cons_of_ne_nil (natToChars_ne_nil z.toNat)
    refine ⟨c, l, h, Or.inr ?_⟩
    exact natToChars_all_digits z.toNat c (h ▸ List.mem_cons_self c l)

/-- A rendered integer never equals a string starting with a character
that is neither a minus sign nor a digit. -/
theorem intToChars_ne_of_head (z : ℤ) (c : Char) (l : List Char)
    (h1 : c ≠ '-') (h2 : c.isDigit = false) : intToChars z ≠ c :: l := by
  obtain ⟨c', l', he, hd⟩ := intToChars_head z
  rw [he]
  intro h
  have hc : c' = c := by injection h
  rcases hd with h' | h'
  · exact h1 (hc ▸ h')
  · rw [hc, h2] at h'
    cases h'

/-- `evenRound` keeps even integers and sends an odd integer to its upper
even neighbour (`Math.round` breaks the tie toward positive infinity). -/
theorem evenRound_eq (z : ℤ) : evenRound z = if Even z then z else z + 1 := by
  rcases Int.even_or_odd z with he | ho
  · obtain ⟨k, hk⟩ := he
    rw [if_pos ⟨k, hk⟩]
    subst hk
    simp only [evenRound, jsRound]
    have h : ((k + k : ℤ) : ℚ) / 2 = ((k : ℤ) : ℚ) := by push_cast; ring
    rw [h, round_intCast]
    ring
  · obtain ⟨k, hk⟩ := ho
    rw [if_neg (Int.not_even_iff_odd.mpr ⟨k, hk⟩)]
    subst hk
    simp only [evenRound, jsRound, round_eq]
    have h : ((2 * k + 1 : ℤ) : ℚ) / 2 + 1 / 2 = ((k + 1 : ℤ) : ℚ) := by push_cast; ring
    rw [h, Int.floor_intCast]
    ring

/-- `evenRound` always produces an even value. -/
theorem evenRound_even (z : ℤ) : Even (evenRound z) :=
  ⟨jsRound ((z : ℚ) / 2), by rw [evenRound]; ring⟩

/-- `evenRound` moves its argument by at most one. -/
theorem evenRound_close (z : ℤ) : |evenRound z - z| ≤ 1 := by
  rw [evenRound_eq]
  split
  · simp
  · simp

/-- Every event recorded by the loop concerns an index at or beyond the
starting index. -/
theorem convertLoop_events_ge (fmt : List Char) (quality : ℤ) (ok : ℕ → Bool) :
    ∀ (items : List ImgItem) (i : ℕ),
      ∀ e ∈ (convertLoop fmt quality ok items i).events, i ≤ e.1 := by
  intro items
  induction items with
  | nil =>
      intro i e he
      simp [convertLoop] at he
  | cons img rest ih =>
      intro i e he
      simp only [convertLoop] at he
      split at he
      · rcases List.mem_cons.mp he with h | h
        · subst h; exact le_refl i
        · rcases List.mem_cons.mp h with h' | h'
          · subst h'; exact le_refl i
          · exact le_trans (Nat.le_succ i) (ih (i + 1) e h')
      · rcases List.mem_cons.mp he with h | h
        · subst h; exact le_refl i
        · cases h

/-- Within one run of the loop, the item at any position receives either
no status, only `processing`, or `processing` then `done` — in that
order. -/
theorem convertLoop_eventsAt (fmt : List Char) (quality : ℤ) (ok : ℕ → Bool) :
    ∀ (items : List ImgItem) (i j : ℕ),
      eventsAt j (convertLoop fmt quality ok items i).events = []
      ∨ eventsAt j (convertLoop fmt quality ok items i).events = [Status.processing]
      ∨ eventsAt j (convertLoop fmt quality ok items i).events
          = [Status.processing, Status.done] := by
  intro items
  induction items with
  | nil =>
      intro i j
      left
      simp [convertLoop, eventsAt]
  | cons img rest ih =>
      intro i j
      by_cases hij : i = j
      · subst hij
        simp only [convertLoop]
        split
        · right; right
          have hrec : ∀ e ∈ (convertLoop fmt quality ok rest (i + 1)).events,
              ¬(e.1 == i) = true := by
            intro e he
            have := convertLoop_events_ge fmt quality ok rest (i + 1) e he
            simp only [beq_iff_eq]
            omega
          simp only [eventsAt, List.filter_cons]
          rw [List.filter_eq_nil_iff.mpr hrec]
          simp
        · right; left
          simp [eventsAt]
      · simp only [convertLoop]
        split
        · have h1 : ((i, Status.processing) : ℕ × Status).1 == j ↔ False := by
            simp only [beq_iff_eq]
            exact iff_false_intro hij
          have h2 := ih (i + 1) j
          simp only [eventsAt, List.filter_cons] at h2 ⊢
          simp only [beq_iff_eq]
          rw [if_neg hij, if_neg hij]
          exact h2
        · left
          simp [eventsAt, List.filter_cons, beq_iff_eq, hij]

/-- `splitOnDot` never returns an empty segment list. -/
theorem splitOnDot_ne_nil (s : List Char) : splitOnDot s ≠ [] := by
  cases s with
  | nil => simp [splitOnDot]
  | cons c cs =>
      simp only [splitOnDot]
      split
      · exact List.cons_ne_nil _ _
      · exact List.cons_ne_nil _ _

/-- `splitOnDot` produces one segment more than the number of dots. -/
theorem splitOnDot_length (s : List Char) :
    (splitOnDot s).length = s.count '.' + 1 := by
  induction s with
  | nil => simp [splitOnDot]
  | cons c cs ih =>
      simp only [splitOnDot]
      by_cases hc : c = '.'
      · rw [if_pos hc]
        simp only [List.length_cons, ih, List.count_cons]
        simp [hc]
      · rw [if_neg hc]
        obtain ⟨a, t, ha⟩ := List.exists_cons_of_ne_nil (splitOnDot_ne_nil cs)
        rw [ha]
        simp only [List.length_cons, List.tail_cons]
        rw [← List.length_cons a t, ← ha, ih]
        simp only [List.count_cons]
        have hne : ('.' == c) = false := by
          simp only [beq_eq_false_iff_ne, ne_eq]
          exact fun h => hc h.symm
        simp [hne]
        exact hc

/-- The first segment of `splitOnDot` contains no dot. -/
theorem dot_not_mem_firstStem (s : List Char) : '.' ∉ firstStem s := by
  induction s with
  | nil => simp [firstStem, splitOnDot]
  | cons c cs ih =>
      simp only [firstStem, splitOnDot]
      by_cases hc : c = '.'
      · rw [if_pos hc]
        simp
      · rw [if_neg hc]
        simp only [List.headD_cons, List.mem_cons]
        rintro (h | h)
        · exact hc h.symm
        · exact ih h

/-- Joining two or more segments with dots puts a dot in the result. -/
theorem dot_mem_joinDots : ∀ (l : List (List Char)), 2 ≤ l.length → '.' ∈ joinDots l := by
  intro l h
  match l with
  | [] => simp at h
  | [a] => simp at h
  | a :: b :: rest =>
      show '.' ∈ a ++ '.' :: joinDots (b :: rest)
      simp

/-- Lists with different head characters differ. -/
theorem ne_of_head_ne {a b : Char} (l₁ l₂ : List Char) (h : a ≠ b) :
    a :: l₁ ≠ b :: l₂ := by
  intro he
  injection he with h1 _
  exact h h1

/-- An appended list whose visible head differs from a cons head differs
from it. -/
theorem append_cons_ne {c d : Char} (cs l₁ l₂ : List Char) (h : c ≠ d) :
    (c :: cs) ++ l₁ ≠ d :: l₂ := by
  rw [List.cons_append]
  exact ne_of_head_ne _ _ h

/-- Two appended lists with different head characters differ. -/
theorem append_ne_append {c d : Char} (cs ds l₁ l₂ : List Char) (h : c ≠ d) :
    (c :: cs) ++ l₁ ≠ (d :: ds) ++ l₂ := by
  simp only [List.cons_append]
  exact ne_of_head_ne _ _ h

/-- Two metadata directives with the same value agree exactly when their
tag keys agree. -/
theorem metaDirective_inj (t₁ t₂ kw : List Char)
    (h : t₁ ++ '=' :: kw = t₂ ++ '=' :: kw) : t₁ = t₂ := by
  have h' : (t₁ ++ ['=']) ++ kw = (t₂ ++ ['=']) ++ kw := by
    simpa [List.append_assoc] using h
  exact (List.append_left_inj ['=']).mp ((List.append_left_inj kw).mp h')

/-- In the metadata block generated from a duplicate-free tag list, the
directive of a listed tag occurs exactly once. -/
theorem count_tagBlock (kw : List Char) {c : Char} {cs : List Char}
    (hc : c ≠ '-') :
    ∀ (L : List (List Char)), L.Nodup → (c :: cs) ∈ L →
    (L.flatMap (fun s => [("-metadata").data, s ++ '=' :: kw])).count
      ((c :: cs) ++ '=' :: kw) = 1 := by
  intro L
  induction L with
  | nil =>
      intro _ h
      cases h
  | cons s rest ih =>
      intro hnd hmem
      have hmd : ((c :: cs) ++ '=' :: kw) ≠ ("-metadata").data :=
        append_cons_ne _ _ _ hc
      rw [List.flatMap_cons, List.count_append]
      rcases List.mem_cons.mp hmem with heq | hmem'
      · subst heq
        have hpair : List.count ((c :: cs) ++ '=' :: kw)
            [("-metadata").data, (c :: cs) ++ '=' :: kw] = 1 := by
          rw [List.count_cons_of_ne hmd, List.count_cons_self, List.count_nil]
        have h0 : (rest.flatMap
            (fun s' => [("-metadata").data, s' ++ '=' :: kw])).count
            ((c :: cs) ++ '=' :: kw) = 0 := by
          apply List.count_eq_zero.mpr
          intro hx
          rcases List.mem_flatMap.mp hx with ⟨s', hs', hmem2⟩
          rcases List.mem_cons.mp hmem2 with h1 | h1
          · exact hmd h1
          · have h2 := List.mem_singleton.mp h1
            have h3 := metaDirective_inj _ _ _ h2
            exact (List.nodup_cons.mp hnd).1 (h3 ▸ hs')
        rw [hpair, h0]
      · have hsne : s ≠ c :: cs := by
          intro h
          subst h
          exact (List.nodup_cons.mp hnd).1 hmem'
        have hpair : List.count ((c :: cs) ++ '=' :: kw)
            [("-metadata").data, s ++ '=' :: kw] = 0 := by
          apply List.count_eq_zero.mpr
          intro hx
          rcases List.mem_cons.mp hx with h1 | h1
          · exact hmd h1
          · have h2 := List.mem_singleton.mp h1
            exact hsne (metaDirective_inj _ _ _ h2).symm
        rw [hpair, ih (List.nodup_cons.mp hnd).2 hmem']

/-- A metadata directive whose tag key avoids the head characters of all
other planned arguments occurs in the full image plan exactly as often as
in the metadata block — namely once. -/
theorem count_planImageArgs (img : ImgItem) (fmt : List Char) (quality : ℤ)
    (hk : kwNonEmpty img.keyword = true) {c : Char} {cs : List Char}
    (hc1 : c ≠ '-') (hc2 : c ≠ 'i') (hc3 : c ≠ 's') (hc4 : c ≠ 'o')
    (hc5 : c.isDigit = false)
    (hcount : (metaTags.flatMap
        (fun s => [("-metadata").data, s ++ '=' :: img.keyword])).count
        ((c :: cs) ++ '=' :: img.keyword) = 1) :
    (planImageArgs fmt quality img).count ((c :: cs) ++ '=' :: img.keyword) = 1 := by
  simp only [planImageArgs]
  rw [if_pos hk]
  rw [List.count_append, List.count_append, List.count_append, List.count_append]
  have e1 : List.count ((c :: cs) ++ '=' :: img.keyword)
      [("-i").data, inputVirtualName img] = 0 := by
    apply List.count_eq_zero.mpr
    intro hmem
    rcases List.mem_cons.mp hmem with h | h
    · exact append_cons_ne _ _ _ hc1 h
    · have h' := List.mem_singleton.mp h
      rw [inputVirtualName] at h'
      exact append_ne_append _ _ _ _ hc2 h'
  have e2 : List.count ((c :: cs) ++ '=' :: img.keyword)
      (if img.targetWidth ≠ img.originalWidth ∨ img.targetHeight ≠ img.originalHeight then
        [("-vf").data,
         ("scale=").data ++ intToChars img.targetWidth
           ++ ':' :: intToChars img.targetHeight]
      else []) = 0 := by
    split
    · apply List.count_eq_zero.mpr
      intro hmem
      rcases List.mem_cons.mp hmem with h | h
      · exact append_cons_ne _ _ _ hc1 h
      · have h' := List.mem_singleton.mp h
        exact append_ne_append _ _ _ _ hc3 h'
    · rfl
  have e3 : List.count ((c :: cs) ++ '=' :: img.keyword)
      (if fmt = ("jpg").data ∨ fmt = ("jpeg").data then
        [("-q:v").data, intToChars (jpegEngineQuality quality)]
      else if fmt = ("webp").data then
        [("-quality").data, intToChars quality]
      else []) = 0 := by
    split
    · apply List.count_eq_zero.mpr
      intro hmem
      rcases List.mem_cons.mp hmem with h | h
      · exact append_cons_ne _ _ _ hc1 h
      · have h' := List.mem_singleton.mp h
        exact intToChars_ne_of_head _ c _ hc1 hc5 h'.symm
    · split
      · apply List.count_eq_zero.mpr
        intro hmem
        rcases List.mem_cons.mp hmem with h | h
        · exact append_cons_ne _ _ _ hc1 h
        · have h' := List.mem_singleton.mp h
          exact intToChars_ne_of_head _ c _ hc1 hc5 h'.symm
      · rfl
  have e5 : List.count ((c :: cs) ++ '=' :: img.keyword)
      [outputVirtualName img fmt] = 0 := by
    apply List.count_eq_zero.mpr
    intro hmem
    have h' := List.mem_singleton.mp hmem
    rw [outputVirtualName] at h'
    exact append_ne_append _ _ _ _ hc4 h'
  rw [e1, e2, e3, hcount, e5]

end Converter

/-- Claim C2: for every integer user quality q with 1 ≤ q ≤ 100 and JPEG
output, the planned engine quality value equals
clamp(floor(31 − (q−1)×29/99), 2, 31); the mapping sends 1 to 31 and 100
to 2, is non-increasing over 1..100, and always lies within [2, 31]. -/
theorem Converter.spec_C2 (q q' : ℤ) (h1 : 1 ≤ q) (hqq : q ≤ q') (h2 : q' ≤ 100) :
    Converter.jpegEngineQuality q = Converter.jpegQualitySpecFormula q
    ∧ 2 ≤ Converter.jpegEngineQuality q
    ∧ Converter.jpegEngineQuality q ≤ 31
    ∧ Converter.jpegEngineQuality q' ≤ Converter.jpegEngineQuality q
    ∧ Converter.jpegEngineQuality 1 = 31
    ∧ Converter.jpegEngineQuality 100 = 2 := by
  simp only [Converter.jpegEngineQuality, Converter.jpegQualitySpecFormula,
    Converter.jpegFloor_eq_intDiv]
  omega

/-- Witness for C2 at the concrete pair q = 30 ≤ q' = 60. -/
theorem Converter.spec_C2_witness :
    Converter.jpegEngineQuality 60 ≤ Converter.jpegEngineQuality 30
    ∧ Converter.jpegEngineQuality 1 = 31
    ∧ Converter.jpegEngineQuality 100 = 2 := by
  have h := Converter.spec_C2 30 60 (by norm_num) (by norm_num) (by norm_num)
  exact ⟨h.2.2.2.1, h.2.2.2.2⟩

/-- Claim C3: after a single edit of one target dimension, the other
target dimension is the aspect-correct value rounded to the nearest
integer, hence within rounding error 1 of exact aspect preservation; in
particular a 1920x1080 source with width set to 960 gets height 540. -/
theorem Converter.spec_C3 : ∀ (img : Converter.ImgItem) (v : ℤ),
    ((Converter.updateDims img Converter.Dim.width v).targetWidth = v
      ∧ |(((Converter.updateDims img Converter.Dim.width v).targetHeight : ℤ) : ℚ)
          - (v : ℚ) / img.aspectRatio| ≤ 1)
    ∧ ((Converter.updateDims img Converter.Dim.height v).targetHeight = v
      ∧ |(((Converter.updateDims img Converter.Dim.height v).targetWidth : ℤ) : ℚ)
          - (v : ℚ) * img.aspectRatio| ≤ 1)
    ∧ (Converter.updateDims Converter.sampleItem1080 Converter.Dim.width 960).targetHeight
        = 540 := by
  intro img v
  refine ⟨⟨rfl, ?_⟩, ⟨rfl, ?_⟩, ?_⟩
  · exact Converter.jsRound_close ((v : ℚ) / img.aspectRatio)
  · exact Converter.jsRound_close ((v : ℚ) * img.aspectRatio)
  · show Converter.jsRound ((960 : ℚ) / ((1920 : ℚ) / 1080)) = 540
    rw [Converter.jsRound, round_eq]
    norm_num

/-- Claim C4 counterexample: with a requested custom resolution of
1001x563 the emitted scale filter is `scale=1002:564` (ties of
`Math.round` go up), not `scale=1000:562` as the claim states; the full
planned argument list is computed and the claimed filter string is absent
from it. -/
theorem Converter.spec_C4_counterexample :
    Converter.planVideoArgs (("mp4").data) (("custom").data) (("libx264").data) 1001 563
      = [("-i").data, ("input").data, ("-vf").data, ("scale=1002:564").data,
         ("-c:v").data, ("libx264").data, ("-preset").data, ("fast").data,
         ("output.mp4").data]
    ∧ ("scale=1000:562").data
        ∉ Converter.planVideoArgs (("mp4").data) (("custom").data) (("libx264").data) 1001 563 := by
  have h1 : Converter.evenRound 1001 = 1002 := by
    rw [Converter.evenRound_eq, if_neg (by rw [Int.even_iff]; decide)]
    decide
  have h2 : Converter.evenRound 563 = 564 := by
    rw [Converter.evenRound_eq, if_neg (by rw [Int.even_iff]; decide)]
    decide
  have hp : Converter.planVideoArgs (("mp4").data) (("custom").data) (("libx264").data) 1001 563
      = [("-i").data, ("input").data, ("-vf").data, ("scale=1002:564").data,
         ("-c:v").data, ("libx264").data, ("-preset").data, ("fast").data,
         ("output.mp4").data] := by
    simp only [Converter.planVideoArgs, h1, h2]
    decide
  refine ⟨hp, ?_⟩
  rw [hp]
  decide

/-- Claim C4 amended: in custom resolution mode the plan emits a scale
filter whose dimensions are `Math.round(v / 2) * 2` of the requested
values — each even and within 1 of the request, with an odd request
rounded to the upper even neighbour; 1001x563 yields 1002x564. -/
theorem Converter.spec_C4_amended : ∀ (w h : ℤ) (fmt codec : List Char),
    (("scale=").data ++ Converter.intToChars (Converter.evenRound w)
        ++ ':' :: Converter.intToChars (Converter.evenRound h))
      ∈ Converter.planVideoArgs fmt (("custom").data) codec w h
    ∧ Converter.evenRound w = (if Even w then w else w + 1)
    ∧ Even (Converter.evenRound w)
    ∧ |Converter.evenRound w - w| ≤ 1 := by
  intro w h fmt codec
  refine ⟨?_, Converter.evenRound_eq w, Converter.evenRound_even w,
    Converter.evenRound_close w⟩
  simp [Converter.planVideoArgs]

/-- Claim C10 counterexample: editing the width to the non-positive value
-5 stores -5 (because `parseInt(...) || 0` only zeroes a falsy parse, and
-5 is truthy), not 0 as the claim states; the height is left unchanged. -/
theorem Converter.spec_C10_counterexample :
    (Converter.handleWidthChange Converter.sampleVideoState (some (-5))).customWidth = -5
    ∧ (-5 : ℤ) ≠ 0
    ∧ (Converter.handleWidthChange Converter.sampleVideoState (some (-5))).customHeight
        = 1080 := by
  refine ⟨rfl, by decide, rfl⟩

/-- Claim C10 amended: editing the width stores the parsed value as is
(0 exactly when the input fails to parse or parses to 0); the height is
recomputed from the aspect ratio precisely when the stored value is
strictly positive and is unchanged otherwise. -/
theorem Converter.spec_C10_amended (st : Converter.VideoState) (input : Option ℤ) :
    (Converter.handleWidthChange st input).customWidth = Converter.jsOr0 input
    ∧ (Converter.jsOr0 input ≤ 0 →
        (Converter.handleWidthChange st input).customHeight = st.customHeight)
    ∧ (0 < Converter.jsOr0 input →
        (Converter.handleWidthChange st input).customHeight
          = Converter.jsRound ((Converter.jsOr0 input : ℚ) / st.aspectRatio))
    ∧ Converter.jsOr0 none = 0 := by
  refine ⟨?_, ?_, ?_, rfl⟩
  · simp only [Converter.handleWidthChange]
    split <;> rfl
  · intro h
    simp only [Converter.handleWidthChange]
    rw [if_neg (by omega)]
  · intro h
    simp only [Converter.handleWidthChange]
    rw [if_pos h]

/-- Witness for the amended C10 at the default state with input 960: the
width is stored and the height is recomputed to 540. -/
theorem Converter.spec_C10_amended_witness :
    (Converter.handleWidthChange Converter.sampleVideoState (some 960)).customWidth = 960
    ∧ (Converter.handleWidthChange Converter.sampleVideoState (some 960)).customHeight
        = 540 := by
  have h := Converter.spec_C10_amended Converter.sampleVideoState (some 960)
  refine ⟨h.1, ?_⟩
  have h2 := h.2.2.1 (by decide)
  rw [h2]
  show Converter.jsRound ((960 : ℚ) / ((16 : ℚ) / 9)) = 540
  rw [Converter.jsRound, round_eq]
  norm_num

/-- Claim C1 evaluated on the code: in a two-item batch whose first item's
engine invocation throws, the run aborts — the failing item is left in
`processing` (never `error`), the second item is never processed (stays
`idle`), and no bundle is finalized — contradicting the claimed per-item
isolation with an N−1-entry bundle. -/
theorem Converter.spec_C1_code_eval :
    (Converter.convertImagesRun (("webp").data) 100 (fun i => i != 0)
        [Converter.itemA, Converter.itemB]).bundle = none
    ∧ (Converter.convertImagesRun (("webp").data) 100 (fun i => i != 0)
        [Converter.itemA, Converter.itemB]).images.map (fun x => x.status)
        = [Converter.Status.processing, Converter.Status.idle]
    ∧ Converter.Status.error
        ∉ (Converter.convertImagesRun (("webp").data) 100 (fun i => i != 0)
            [Converter.itemA, Converter.itemB]).images.map (fun x => x.status) := by
  refine ⟨rfl, rfl, by decide⟩

/-- Claim C6 evaluated on the code: when the single item's engine
invocation throws, no virtual file is deleted at all (the deletions sit on
the success path inside the aborted `try`), while a successful item does
get both its virtual files deleted. -/
theorem Converter.spec_C6_code_eval :
    (Converter.convertImagesRun (("webp").data) 100 (fun _ => false)
        [Converter.itemA]).deleted = []
    ∧ (Converter.convertImagesRun (("webp").data) 100 (fun _ => true)
        [Converter.itemA]).deleted
        = [Converter.inputVirtualName Converter.itemA,
           Converter.outputVirtualName Converter.itemA (("webp").data)] :=
  ⟨rfl, rfl⟩

/-- Claim C7 counterexample: an item already in `done` state is set back
to `processing` by a subsequent conversion run (re-conversion is not
short-circuited), so `done` items do return to the `processing` status. -/
theorem Converter.spec_C7_counterexample :
    Converter.itemDone.status = Converter.Status.done
    ∧ (0, Converter.Status.processing)
        ∈ (Converter.convertImagesRun (("webp").data) 100 (fun _ => true)
            [Converter.itemDone]).events := by
  exact ⟨rfl, by decide⟩

/-- Claim C7 amended: within a single conversion run each item moves
forward only (it receives no status, `processing` only, or `processing`
then `done`; `error` is never assigned), and discarding only removes items
(the remaining list is a sublist of the original); but a new conversion
run resets every item in the batch — including `done` ones — to
`processing` before reprocessing it. -/
theorem Converter.spec_C7_amended :
    (∀ (fmt : List Char) (quality : ℤ) (ok : ℕ → Bool)
        (items : List Converter.ImgItem) (j : ℕ),
      Converter.eventsAt j (Converter.convertImagesRun fmt quality ok items).events = []
      ∨ Converter.eventsAt j (Converter.convertImagesRun fmt quality ok items).events
          = [Converter.Status.processing]
      ∨ Converter.eventsAt j (Converter.convertImagesRun fmt quality ok items).events
          = [Converter.Status.processing, Converter.Status.done])
    ∧ (∀ (imgs : List Converter.ImgItem) (id : List Char),
        List.Sublist (Converter.removeImage imgs id) imgs) := by
  constructor
  · intro fmt quality ok items j
    rw [Converter.convertImagesRun]
    split
    · left
      simp [Converter.eventsAt]
    · exact Converter.convertLoop_eventsAt fmt quality ok items 0 j
  · intro imgs id
    exact List.filter_sublist imgs

/-- Claim C5 counterexample: for a successfully converted item named
`photo.png` carrying the nonempty keyword `Summer Sale!!`, the finalized
bundle's only entry is `photo.webp` — the stem of the original filename —
not the sanitized keyword stem `Summer-Sale--.webp` the claim requires
(the sanitized keyword names only the individual download). -/
theorem Converter.spec_C5_counterexample :
    Converter.kwNonEmpty Converter.photoItem.keyword = true
    ∧ (Converter.convertImagesRun (("webp").data) 100 (fun _ => true)
        [Converter.photoItem]).bundle = some [("photo.webp").data]
    ∧ ("photo.webp").data ≠ ("Summer-Sale--.webp").data
    ∧ Converter.individualName Converter.photoItem (("webp").data)
        = ("Summer-Sale--.webp").data := by
  refine ⟨by decide, rfl, by decide, by decide⟩

/-- Claim C9: for a successfully converted item with an empty keyword
whose original filename contains more than one dot, the individual
download filename (stem before the first dot) differs from its bundle
entry filename (stem before the last dot). -/
theorem Converter.spec_C9 (img : Converter.ImgItem) (fmt : List Char)
    (hk : Converter.kwNonEmpty img.keyword = false)
    (hd : 2 ≤ img.name.count '.') :
    Converter.individualName img fmt ≠ Converter.bundleEntryName img fmt := by
  intro h
  rw [Converter.individualName, Converter.bundleEntryName, hk] at h
  simp only [Bool.false_eq_true, if_false] at h
  have hstem : Converter.firstStem img.name = Converter.lastDotStem img.name :=
    (List.append_left_inj ('.' :: fmt)).mp h
  have h1 : '.' ∉ Converter.firstStem img.name := Converter.dot_not_mem_firstStem img.name
  have h2 : '.' ∈ Converter.lastDotStem img.name := by
    apply Converter.dot_mem_joinDots
    have hlen := Converter.splitOnDot_length img.name
    have : (Converter.splitOnDot img.name).dropLast.length
        = (Converter.splitOnDot img.name).length - 1 := List.length_dropLast _
    omega
  rw [hstem] at h1
  exact h1 h2

/-- Witness for C9 at the concrete name `a.b.png` converted to webp: the
individual download is `a.webp`, the bundle entry is `a.b.webp`, and they
differ. -/
theorem Converter.spec_C9_witness :
    Converter.individualName Converter.abItem (("webp").data) = ("a.webp").data
    ∧ Converter.bundleEntryName Converter.abItem (("webp").data) = ("a.b.webp").data
    ∧ Converter.individualName Converter.abItem (("webp").data)
        ≠ Converter.bundleEntryName Converter.abItem (("webp").data) := by
  refine ⟨by decide, by decide,
    Converter.spec_C9 Converter.abItem (("webp").data) (by decide) (by decide)⟩

/-- Claim C5 amended: the finalized bundle of a fully successful run has
one entry per item named `<original-stem-before-last-dot>.<format>`
regardless of the keyword; the sanitized keyword instead names the item's
individual download (for a nonempty keyword the individual name is
`<sanitized-keyword>.<format>`, and `Summer Sale!!` sanitizes to
`Summer-Sale--`). -/
theorem Converter.spec_C5_amended :
    (∀ (items : List Converter.ImgItem) (fmt : List Char) (quality : ℤ) (i : ℕ),
      (Converter.convertLoop fmt quality (fun _ => true) items i).bundle
        = some (items.map (fun img => Converter.bundleEntryName img fmt)))
    ∧ (∀ (img : Converter.ImgItem) (fmt : List Char),
        Converter.kwNonEmpty img.keyword = true →
        Converter.individualName img fmt
          = Converter.sanitizeKeyword img.keyword ++ '.' :: fmt)
    ∧ Converter.sanitizeKeyword (("Summer Sale!!").data) = ("Summer-Sale--").data := by
  refine ⟨?_, ?_, by decide⟩
  · intro items fmt quality
    induction items with
    | nil => intro i; rfl
    | cons img rest ih =>
        intro i
        simp [Converter.convertLoop, ih (i + 1)]
  · intro img fmt hk
    rw [Converter.individualName, hk]
    simp

/-- Witness for the amended C5 at the keyworded item `photo.png`: its
individual download name uses the sanitized keyword while its bundle entry
keeps the original stem. -/
theorem Converter.spec_C5_amended_witness :
    Converter.individualName Converter.photoItem (("webp").data)
      = Converter.sanitizeKeyword Converter.photoItem.keyword ++ '.' :: (("webp").data)
    ∧ (Converter.convertLoop (("webp").data) 100 (fun _ => true)
        [Converter.photoItem] 0).bundle
      = some [Converter.bundleEntryName Converter.photoItem (("webp").data)] := by
  refine ⟨Converter.spec_C5_amended.2.1 Converter.photoItem (("webp").data) (by decide), ?_⟩
  have h := Converter.spec_C5_amended.1 [Converter.photoItem] (("webp").data) 100 0
  simpa using h

/-- Claim C8 counterexample: for an item with nonempty keyword `x` the
plan contains no metadata directive for the literal key `creation-date`
(so the claimed key set is wrong); the sixth directive uses the RIFF key
`ICRD` instead. -/
theorem Converter.spec_C8_counterexample :
    Converter.kwNonEmpty Converter.kwXItem.keyword = true
    ∧ (Converter.planImageArgs (("png").data) 100 Converter.kwXItem).count
        (("creation-date=x").data) = 0
    ∧ ("creation-date=x").data
        ∉ Converter.planImageArgs (("png").data) 100 Converter.kwXItem
    ∧ ("ICRD=x").data ∈ Converter.planImageArgs (("png").data) 100 Converter.kwXItem := by
  refine ⟨by decide, by decide, by decide, by decide⟩

/-- Claim C8 amended: for every item whose keyword is nonempty, the plan
contains exactly one metadata directive for each tag key in the fixed set
written in the code — title, description, comment, author, copyright and
ICRD (the RIFF creation-date key, not the literal key `creation-date`) —
each carrying the same literal keyword value. -/
theorem Converter.spec_C8_amended (img : Converter.ImgItem) (fmt : List Char)
    (quality : ℤ) (hk : Converter.kwNonEmpty img.keyword = true) :
    ∀ t ∈ Converter.metaTags,
      (Converter.planImageArgs fmt quality img).count (t ++ '=' :: img.keyword) = 1 := by
  intro t ht
  have hnd : Converter.metaTags.Nodup := by decide
  simp only [Converter.metaTags, List.mem_cons, List.not_mem_nil, or_false] at ht
  rcases ht with rfl | rfl | rfl | rfl | rfl | rfl
  all_goals
    refine Converter.count_planImageArgs img fmt quality hk
      (by decide) (by decide) (by decide) (by decide) (by decide) ?_
  all_goals
    exact Converter.count_tagBlock img.keyword (by decide) Converter.metaTags hnd (by decide)

/-- Witness for the amended C8 at the keyworded item: the `title`
directive occurs exactly once in its plan. -/
theorem Converter.spec_C8_amended_witness :
    Converter.kwNonEmpty Converter.photoItem.keyword = true
    ∧ (Converter.planImageArgs (("png").data) 100 Converter.photoItem).count
        ((("title").data) ++ '=' :: Converter.photoItem.keyword) = 1 := by
  refine ⟨by decide, Converter.spec_C8_amended Converter.photoItem (("png").data) 100
    (by decide) (("title").data) (by decide)⟩
